import Mathlib

/-!
Shallow embedding of the transform and load stages of the sales data
warehouse ETL pipeline (etl/transform.py and etl/load.py), together with
theorems settling the specification claims about them.

Conventions of the embedding:
* pandas dataframes become Lists of per-entity record structures;
* a raw cell that may be missing (NaN) or hold non-numeric text is a
  RawField; pd.to_numeric(..., errors=coerce) becomes RawField.toNumeric;
* Python dicts used for surrogate-key lookup become association lists
  read with List.lookup (the dimension tables carry a unique constraint
  on the natural key, so first-match and last-match coincide);
* the SQL INSERT ... ON CONFLICT statements of load.py become explicit
  upsert functions on in-memory table states; CURRENT_TIMESTAMP becomes
  an explicit integer parameter threaded into the load functions;
* Python int() casts on floats become truncation toward zero (Int.tdiv).
-/

/-! ## Calendar dates (datetime.date / pandas Timestamp) -/

/-- A calendar date, as the (year, month, day) components pandas exposes. -/
structure Date where
  year : Nat
  month : Nat
  day : Nat
deriving DecidableEq, Repr

/-- Cumulative day counts before each month in a non-leap year. -/
def cumDays : List Nat := [0, 31, 59, 90, 120, 151, 181, 212, 243, 273, 304, 334]

/-- Gregorian leap-year rule, as used by Python datetime. -/
def isLeap (y : Nat) : Bool := (y % 4 == 0 && y % 100 != 0) || y % 400 == 0

/-- Days in year y that precede the first day of month m. -/
def daysBeforeMonth (y m : Nat) : Nat :=
  cumDays.getD (m - 1) 0 + (if 2 < m && isLeap y then 1 else 0)

/-- Proleptic Gregorian ordinal of a date: 0001-01-01 has ordinal 1,
matching datetime.date.toordinal. -/
def Date.toOrd (d : Date) : Nat :=
  365 * (d.year - 1) + (d.year - 1) / 4 - (d.year - 1) / 100 + (d.year - 1) / 400
    + daysBeforeMonth d.year d.month + d.day

/-- datetime.date.weekday: Monday = 0 ... Sunday = 6.
0001-01-01 is a Monday in the proleptic Gregorian calendar. -/
def Date.weekday (d : Date) : Nat := (d.toOrd + 6) % 7

/-- Chronological order on dates, componentwise lexicographic; this is the
order pandas sort_values uses on the sale_date column (for calendar dates
the lexicographic component order is the chronological one). -/
def Date.Le (a b : Date) : Prop :=
  a.year < b.year ∨ (a.year = b.year ∧ (a.month < b.month ∨
    (a.month = b.month ∧ a.day ≤ b.day)))

instance : DecidableRel Date.Le := by
  intro a b
  unfold Date.Le
  infer_instance

instance : IsTotal Date Date.Le := by
  constructor
  intro a b
  unfold Date.Le
  omega

instance : IsTrans Date Date.Le := by
  constructor
  intro a b c hab hbc
  unfold Date.Le at *
  omega

instance : IsAntisymm Date Date.Le := by
  constructor
  intro a b hab hba
  obtain ⟨y1, m1, d1⟩ := a
  obtain ⟨y2, m2, d2⟩ := b
  unfold Date.Le at hab hba
  dsimp only at hab hba
  simp only [Date.mk.injEq]
  omega

/-! ## Raw cells and numeric coercion (pandas NaN / to_numeric) -/

/-- A raw dataframe cell: missing (NaN), a numeric value, or non-numeric
text that pd.to_numeric(..., errors=coerce) would turn into NaN. -/
inductive RawField where
  | missing
  | num (q : ℚ)
  | text (s : String)
deriving DecidableEq, Repr

/-- Whether the cell is missing (isna / dropna test). -/
def RawField.isMissing : RawField → Bool
  | .missing => true
  | _ => false

/-- pd.to_numeric(..., errors=coerce) on one cell: numbers pass through,
missing values and non-numeric text become NaN (none). -/
def RawField.toNumeric : RawField → Option ℚ
  | .num q => some q
  | _ => none

/-- Python int() on a rational (float) value: truncation toward zero. -/
def ratTrunc (q : ℚ) : Int := Int.tdiv q.num (q.den : Int)

/-! ## remove_duplicates (transform.py): drop_duplicates, first occurrence wins -/

/-- Worker for remove_duplicates: walk the rows in order, keeping a row
only when its key value has not been seen before. -/
def removeDupsAux {α κ : Type} [DecidableEq κ] (key : α → κ) :
    List κ → List α → List α
  | _, [] => []
  | seen, x :: xs =>
    if key x ∈ seen then removeDupsAux key seen xs
    else x :: removeDupsAux key (key x :: seen) xs

/-- remove_duplicates(df, subset): pandas drop_duplicates with keep=first;
the key function plays the role of the subset of columns. -/
def remove_duplicates {α κ : Type} [DecidableEq κ] (key : α → κ) (df : List α) : List α :=
  removeDupsAux key [] df

/-! ## Sales records and transform_sales_data -/

/-- A raw sales row as extracted; the three measure columns may hold
missing or non-numeric cells. -/
structure RawSales where
  sale_id : Int
  sale_date : Date
  customer_id : Int
  product_id : Int
  quantity : RawField
  unit_price : RawField
  total_amount : RawField
deriving DecidableEq, Repr

/-- A cleaned sales row: measures coerced to numeric values. -/
structure CleanSales where
  sale_id : Int
  sale_date : Date
  customer_id : Int
  product_id : Int
  quantity : ℚ
  unit_price : ℚ
  total_amount : ℚ
deriving DecidableEq, Repr

/-- The per-row numeric coercion step of transform_sales_data: succeeds
exactly when all three measure cells coerce to numbers (rows where any
coercion yields NaN are dropped by the subsequent dropna). -/
def rowNumeric (r : RawSales) : Option CleanSales :=
  match r.quantity.toNumeric, r.unit_price.toNumeric, r.total_amount.toNumeric with
  | some q, some p, some t =>
      some ⟨r.sale_id, r.sale_date, r.customer_id, r.product_id, q, p, t⟩
  | _, _, _ => none

/-- transform_sales_data: drop duplicates on sale_id, drop rows with any
missing cell, coerce the measure columns to numeric dropping coercion
failures, and keep only rows with positive quantity, unit_price and
total_amount. -/
def transform_sales_data (df : List RawSales) : List CleanSales :=
  let d1 := remove_duplicates (fun r => r.sale_id) df
  let d2 := d1.filter (fun r =>
    !r.quantity.isMissing && !r.unit_price.isMissing && !r.total_amount.isMissing)
  let d3 := d2.filterMap rowNumeric
  d3.filter (fun c =>
    decide (0 < c.quantity) && decide (0 < c.unit_price) && decide (0 < c.total_amount))

/-! ## Product records and transform_products_data -/

/-- A raw product row as extracted. -/
structure RawProduct where
  product_id : RawField
  product_name : Option String
  category : Option String
  subcategory : Option String
  unit_cost : RawField
deriving DecidableEq, Repr

/-- A cleaned product row. -/
structure CleanProduct where
  product_id : Int
  product_name : String
  category : String
  subcategory : String
  unit_cost : ℚ
deriving DecidableEq, Repr

/-- transform_products_data: drop duplicates on product_id, drop rows with
any missing cell, coerce product_id to numeric dropping failures and cast
it to int, then coerce unit_cost to numeric filling coercion failures
with 0. -/
def transform_products_data (df : List RawProduct) : List CleanProduct :=
  let d1 := remove_duplicates (fun r => r.product_id) df
  let d2 := d1.filter (fun r =>
    !r.product_id.isMissing && r.product_name.isSome && r.category.isSome &&
    r.subcategory.isSome && !r.unit_cost.isMissing)
  d2.filterMap (fun r =>
    (r.product_id.toNumeric).map (fun pid =>
      { product_id := ratTrunc pid,
        product_name := Option.getD (r.product_name) "",
        category := Option.getD (r.category) "",
        subcategory := Option.getD (r.subcategory) "",
        unit_cost := Option.getD (r.unit_cost.toNumeric) 0 }))

/-! ## The date dimension (create_date_dimension) -/

/-- The fixed 12-entry month name table of create_date_dimension. -/
def month_names : List String :=
  ["January", "February", "March", "April", "May", "June",
   "July", "August", "September", "October", "November", "December"]

/-- The fixed 7-entry weekday name table of create_date_dimension,
indexed by Python weekday (Monday = 0 ... Sunday = 6). -/
def day_names : List String :=
  ["Monday", "Tuesday", "Wednesday", "Thursday", "Friday", "Saturday", "Sunday"]

/-- One row of the date dimension. -/
structure DateDimRow where
  sale_date : Date
  day : Nat
  month : Nat
  quarter : Nat
  year : Nat
  month_name : String
  quarter_name : String
  day_of_week : String
  is_weekend : Bool
deriving DecidableEq, Repr

/-- The per-date attribute computation inside the loop of
create_date_dimension. -/
def mkDateRow (d : Date) : DateDimRow :=
  { sale_date := d,
    day := d.day,
    month := d.month,
    quarter := (d.month - 1) / 3 + 1,
    year := d.year,
    month_name := month_names.getD (d.month - 1) "",
    quarter_name := "Q" ++ toString ((d.month - 1) / 3 + 1),
    day_of_week := day_names.getD (d.weekday) "",
    is_weekend := decide (5 ≤ d.weekday) }

/-- Row order used when sorting the date dimension by sale_date. -/
def RowLe (a b : DateDimRow) : Prop := Date.Le a.sale_date b.sale_date

instance : DecidableRel RowLe := by
  intro a b
  unfold RowLe
  infer_instance

instance : IsTotal DateDimRow RowLe :=
  ⟨fun a b => total_of Date.Le a.sale_date b.sale_date⟩

instance : IsTrans DateDimRow RowLe := by
  constructor
  intro a b c hab hbc
  have h1 : Date.Le a.sale_date b.sale_date := hab
  have h2 : Date.Le b.sale_date c.sale_date := hbc
  have h3 := IsTrans.trans _ _ _ h1 h2
  exact h3

/-- create_date_dimension: one row per distinct sale_date of the cleaned
sales set (pandas unique keeps the first occurrence order), then sort the
rows ascending by sale_date. -/
def create_date_dimension (sales : List CleanSales) : List DateDimRow :=
  let uniqueDates := remove_duplicates (fun d => d) (sales.map (fun r => r.sale_date))
  List.insertionSort RowLe (uniqueDates.map mkDateRow)

/-! ## Fact resolution (load_fact_sales, record-building loop) -/

/-- A row of the fact_sales table; also the shape of the tuples the
loader appends to fact_records (sale_id, the three surrogate keys,
int(quantity), float(unit_price), float(total_amount)). -/
structure FactRow where
  sale_id : Int
  date_key : Int
  customer_key : Int
  product_key : Int
  quantity : Int
  unit_price : ℚ
  total_amount : ℚ
deriving DecidableEq, Repr

/-- The three lookup dictionaries load_fact_sales builds from the
dimension tables, as association lists (the natural keys carry a unique
constraint, so the dictionary is faithfully read by first match). -/
structure Lookups where
  date_lookup : List (Date × Int)
  customer_lookup : List (Int × Int)
  product_lookup : List (Int × Int)
deriving DecidableEq, Repr

/-- Python truthiness of an optional surrogate key, as tested by
all([date_key, customer_key, product_key]): None is falsy and so is the
integer 0. -/
def truthyKey : Option Int → Bool
  | none => false
  | some k => decide (k ≠ 0)

/-- The fact tuple built for a resolved sales record. -/
def mkFactRecord (r : CleanSales) (dk ck pk : Int) : FactRow :=
  { sale_id := r.sale_id,
    date_key := dk,
    customer_key := ck,
    product_key := pk,
    quantity := ratTrunc r.quantity,
    unit_price := r.unit_price,
    total_amount := r.total_amount }

/-- The record-building loop of load_fact_sales: for each cleaned sales
row look up the three surrogate keys, skip the row (counting it) when
not all three looked-up values are truthy, and otherwise append the fact
tuple. Returns (fact_records, skipped). -/
def resolve_facts (lk : Lookups) : List CleanSales → List FactRow × Nat
  | [] => ([], 0)
  | r :: rs =>
    let dk := lk.date_lookup.lookup r.sale_date
    let ck := lk.customer_lookup.lookup r.customer_id
    let pk := lk.product_lookup.lookup r.product_id
    let rest := resolve_facts lk rs
    if truthyKey dk && truthyKey ck && truthyKey pk then
      (mkFactRecord r (dk.getD 0) (ck.getD 0) (pk.getD 0) :: rest.1, rest.2)
    else
      (rest.1, rest.2 + 1)

/-! ## Generic upsert (the INSERT ... ON CONFLICT statements of load.py)

A table state is a list of rows together with the next value of the
serial surrogate-key sequence. An upsert of one record either updates
every row whose conflict key matches the record (leaving the sequence
alone) or appends a fresh row built from the next sequence value. -/

/-- The ingredients of one ON CONFLICT upsert statement: how rows and
records are keyed, how a fresh row is built from the sequence value, and
what the DO UPDATE clause overwrites. The three laws record that the
update clause never touches the conflict key, that updating a row with
the record it was just built from (or just updated with) is a no-op on
the stored columns. -/
structure UpsertOps (ρ σ κ : Type) [DecidableEq κ] where
  rowKey : ρ → κ
  recKey : σ → κ
  mkRow : Int → σ → ρ
  updRow : ρ → σ → ρ
  key_upd : ∀ row s, rowKey (updRow row s) = rowKey row
  key_mk : ∀ n s, rowKey (mkRow n s) = recKey s
  upd_mk : ∀ n s, updRow (mkRow n s) s = mkRow n s
  upd_upd : ∀ row s, updRow (updRow row s) s = updRow row s

/-- One record upserted into a table state. -/
def upsertRow {ρ σ κ : Type} [DecidableEq κ] (ops : UpsertOps ρ σ κ)
    (st : List ρ × Int) (s : σ) : List ρ × Int :=
  if st.1.any (fun row => decide (ops.rowKey row = ops.recKey s)) then
    (st.1.map (fun row => if ops.rowKey row = ops.recKey s then ops.updRow row s else row),
     st.2)
  else
    (st.1 ++ [ops.mkRow st.2 s], st.2 + 1)

/-- A whole batch upserted left to right (execute_values over the
prepared records). -/
def upsertBatch {ρ σ κ : Type} [DecidableEq κ] (ops : UpsertOps ρ σ κ)
    (st : List ρ × Int) (df : List σ) : List ρ × Int :=
  df.foldl (upsertRow ops) st

/-! ## Warehouse rows and the four tables -/

/-- A dim_customer row: surrogate key, natural key, attributes, and the
updated_at timestamp column refreshed by the DO UPDATE clause. -/
structure CustRow where
  customer_key : Int
  customer_id : Int
  customer_name : String
  email : String
  city : String
  country : String
  updated_at : Int
deriving DecidableEq, Repr

/-- A cleaned customer record as handed to load_dim_customer. -/
structure CleanCustomer where
  customer_id : Int
  customer_name : String
  email : String
  city : String
  country : String
deriving DecidableEq, Repr

/-- A dim_product row. -/
structure ProdRow where
  product_key : Int
  product_id : Int
  product_name : String
  category : String
  subcategory : String
  unit_cost : ℚ
  updated_at : Int
deriving DecidableEq, Repr

/-- A dim_date row: surrogate key plus the computed date attributes. -/
structure DateRow where
  date_key : Int
  attrs : DateDimRow
deriving DecidableEq, Repr

/-- The warehouse: the four tables plus the serial sequences backing the
surrogate keys. -/
structure Warehouse where
  dim_customer : List CustRow
  dim_product : List ProdRow
  dim_date : List DateRow
  fact_sales : List FactRow
  next_customer_key : Int
  next_product_key : Int
  next_date_key : Int
  next_fact_key : Int
deriving DecidableEq, Repr

/-- The dim_customer upsert statement: conflict on customer_id, DO UPDATE
overwrites the attributes and refreshes updated_at to the current time. -/
def custOps (now : Int) : UpsertOps CustRow CleanCustomer Int where
  rowKey := fun row => row.customer_id
  recKey := fun s => s.customer_id
  mkRow := fun n s => ⟨n, s.customer_id, s.customer_name, s.email, s.city, s.country, now⟩
  updRow := fun row s =>
    { row with customer_name := s.customer_name, email := s.email,
               city := s.city, country := s.country, updated_at := now }
  key_upd := by intro row s; rfl
  key_mk := by intro n s; rfl
  upd_mk := by intro n s; rfl
  upd_upd := by intro row s; cases row; rfl

/-- The dim_product upsert statement: conflict on product_id, DO UPDATE
overwrites the attributes and refreshes updated_at. -/
def prodOps (now : Int) : UpsertOps ProdRow CleanProduct Int where
  rowKey := fun row => row.product_id
  recKey := fun s => s.product_id
  mkRow := fun n s => ⟨n, s.product_id, s.product_name, s.category, s.subcategory, s.unit_cost, now⟩
  updRow := fun row s =>
    { row with product_name := s.product_name, category := s.category,
               subcategory := s.subcategory, unit_cost := s.unit_cost, updated_at := now }
  key_upd := by intro row s; rfl
  key_mk := by intro n s; rfl
  upd_mk := by intro n s; rfl
  upd_upd := by intro row s; cases row; rfl

/-- The dim_date upsert statement: conflict on sale_date, DO NOTHING. -/
def dateOps : UpsertOps DateRow DateDimRow Date where
  rowKey := fun row => row.attrs.sale_date
  recKey := fun s => s.sale_date
  mkRow := fun n s => ⟨n, s⟩
  updRow := fun row _ => row
  key_upd := by intro row s; rfl
  key_mk := by intro n s; rfl
  upd_mk := by intro n s; rfl
  upd_upd := by intro row s; rfl

/-- The fact_sales upsert statement: conflict on sale_id, DO UPDATE
overwrites only the measures quantity, unit_price and total_amount. -/
def factOps : UpsertOps FactRow FactRow Int where
  rowKey := fun row => row.sale_id
  recKey := fun s => s.sale_id
  mkRow := fun _ s => s
  updRow := fun row s =>
    { row with quantity := s.quantity, unit_price := s.unit_price,
               total_amount := s.total_amount }
  key_upd := by intro row s; rfl
  key_mk := by intro n s; rfl
  upd_mk := by intro n s; cases s; rfl
  upd_upd := by intro row s; cases row; rfl

/-! ## The load functions of load.py -/

/-- load_dim_customer: upsert the customer batch. -/
def load_dim_customer (now : Int) (W : Warehouse) (df : List CleanCustomer) : Warehouse :=
  let st := upsertBatch (custOps now) (W.dim_customer, W.next_customer_key) df
  { W with dim_customer := st.1, next_customer_key := st.2 }

/-- load_dim_product: upsert the product batch. -/
def load_dim_product (now : Int) (W : Warehouse) (df : List CleanProduct) : Warehouse :=
  let st := upsertBatch (prodOps now) (W.dim_product, W.next_product_key) df
  { W with dim_product := st.1, next_product_key := st.2 }

/-- load_dim_date: insert the date batch, DO NOTHING on conflict. -/
def load_dim_date (W : Warehouse) (df : List DateDimRow) : Warehouse :=
  let st := upsertBatch dateOps (W.dim_date, W.next_date_key) df
  { W with dim_date := st.1, next_date_key := st.2 }

/-- The three SELECTs at the top of load_fact_sales, building the lookup
dictionaries from the current warehouse state. -/
def mkLookups (W : Warehouse) : Lookups :=
  { date_lookup := W.dim_date.map (fun row => (row.attrs.sale_date, row.date_key)),
    customer_lookup := W.dim_customer.map (fun row => (row.customer_id, row.customer_key)),
    product_lookup := W.dim_product.map (fun row => (row.product_id, row.product_key)) }

/-- load_fact_sales: build the lookups from the warehouse, resolve the
cleaned sales records, and upsert the emitted fact records. -/
def load_fact_sales (W : Warehouse) (df : List CleanSales) : Warehouse :=
  let res := resolve_facts (mkLookups W) df
  let st := upsertBatch factOps (W.fact_sales, W.next_fact_key) res.1
  { W with fact_sales := st.1, next_fact_key := st.2 }

/-- load_all: the four loads in order, dimensions before facts, against
one warehouse state; now is the transaction timestamp CURRENT_TIMESTAMP
evaluates to during this run. -/
def load_all (now : Int) (W : Warehouse) (sales : List CleanSales)
    (customers : List CleanCustomer) (products : List CleanProduct)
    (dates : List DateDimRow) : Warehouse :=
  load_fact_sales
    (load_dim_date
      (load_dim_product now (load_dim_customer now W customers) products)
      dates)
    sales

/-! ## Timestamp-erased view of the warehouse

The updated_at columns are the only wall-clock dependent values; the
erased view keeps every other column of every table, the row order, and
the serial sequences. -/

/-- A dim_customer row without its updated_at column. -/
structure CustData where
  customer_key : Int
  customer_id : Int
  customer_name : String
  email : String
  city : String
  country : String
deriving DecidableEq, Repr

/-- A dim_product row without its updated_at column. -/
structure ProdData where
  product_key : Int
  product_id : Int
  product_name : String
  category : String
  subcategory : String
  unit_cost : ℚ
deriving DecidableEq, Repr

/-- Drop the updated_at column of a customer row. -/
def eraseCustRow (row : CustRow) : CustData :=
  ⟨row.customer_key, row.customer_id, row.customer_name, row.email, row.city, row.country⟩

/-- Drop the updated_at column of a product row. -/
def eraseProdRow (row : ProdRow) : ProdData :=
  ⟨row.product_key, row.product_id, row.product_name, row.category, row.subcategory, row.unit_cost⟩

/-- The warehouse with the updated_at columns projected away. -/
structure WarehouseData where
  dim_customer : List CustData
  dim_product : List ProdData
  dim_date : List DateRow
  fact_sales : List FactRow
  next_customer_key : Int
  next_product_key : Int
  next_date_key : Int
  next_fact_key : Int
deriving DecidableEq, Repr

/-- Project a warehouse to its timestamp-free columns. -/
def eraseW (W : Warehouse) : WarehouseData :=
  ⟨W.dim_customer.map eraseCustRow, W.dim_product.map eraseProdRow,
   W.dim_date, W.fact_sales,
   W.next_customer_key, W.next_product_key, W.next_date_key, W.next_fact_key⟩

/-- The customer upsert as it acts on timestamp-erased rows. -/
def custDataOps : UpsertOps CustData CleanCustomer Int where
  rowKey := fun row => row.customer_id
  recKey := fun s => s.customer_id
  mkRow := fun n s => ⟨n, s.customer_id, s.customer_name, s.email, s.city, s.country⟩
  updRow := fun row s =>
    { row with customer_name := s.customer_name, email := s.email,
               city := s.city, country := s.country }
  key_upd := by intro row s; rfl
  key_mk := by intro n s; rfl
  upd_mk := by intro n s; rfl
  upd_upd := by intro row s; cases row; rfl

/-- The product upsert as it acts on timestamp-erased rows. -/
def prodDataOps : UpsertOps ProdData CleanProduct Int where
  rowKey := fun row => row.product_id
  recKey := fun s => s.product_id
  mkRow := fun n s => ⟨n, s.product_id, s.product_name, s.category, s.subcategory, s.unit_cost⟩
  updRow := fun row s =>
    { row with product_name := s.product_name, category := s.category,
               subcategory := s.subcategory, unit_cost := s.unit_cost }
  key_upd := by intro row s; rfl
  key_mk := by intro n s; rfl
  upd_mk := by intro n s; rfl
  upd_upd := by intro row s; cases row; rfl

/-! ## Properties of remove_duplicates -/

theorem removeDupsAux_sublist {α κ : Type} [DecidableEq κ] (key : α → κ) :
    ∀ (l : List α) (seen : List κ), List.Sublist (removeDupsAux key seen l) l := by
  intro l
  induction l with
  | nil => intro seen; simp [removeDupsAux]
  | cons a l ih =>
    intro seen
    unfold removeDupsAux
    by_cases h : key a ∈ seen
    · simp only [if_pos h]
      exact (ih seen).cons a
    · simp only [if_neg h]
      exact (ih (key a :: seen)).cons₂ a

theorem mem_removeDupsAux_first {α κ : Type} [DecidableEq κ] (key : α → κ) :
    ∀ (l : List α) (seen : List κ) (x : α), x ∈ removeDupsAux key seen l →
      key x ∉ seen ∧ l.find? (fun y => decide (key y = key x)) = some x := by
  intro l
  induction l with
  | nil => intro seen x hx; simp [removeDupsAux] at hx
  | cons a l ih =>
    intro seen x hx
    unfold removeDupsAux at hx
    by_cases h : key a ∈ seen
    · simp only [if_pos h] at hx
      obtain ⟨hns, hfind⟩ := ih seen x hx
      have hne : key a ≠ key x := fun he => hns (he ▸ h)
      refine ⟨hns, ?_⟩
      rw [List.find?_cons]
      simp [hne, hfind]
    · simp only [if_neg h] at hx
      rcases List.mem_cons.mp hx with rfl | hx'
      · refine ⟨h, ?_⟩
        rw [List.find?_cons]
        simp
      · obtain ⟨hns, hfind⟩ := ih (key a :: seen) x hx'
        have hne : key a ≠ key x := by
          intro he
          refine hns ?_
          rw [← he]
          exact List.mem_cons_self _ _
        refine ⟨fun hin => hns (List.mem_cons_of_mem _ hin), ?_⟩
        rw [List.find?_cons]
        simp [hne, hfind]

theorem removeDupsAux_nodup_keys {α κ : Type} [DecidableEq κ] (key : α → κ) :
    ∀ (l : List α) (seen : List κ), ((removeDupsAux key seen l).map key).Nodup := by
  intro l
  induction l with
  | nil => intro seen; simp [removeDupsAux]
  | cons a l ih =>
    intro seen
    unfold removeDupsAux
    by_cases h : key a ∈ seen
    · simp only [if_pos h]
      exact ih seen
    · simp only [if_neg h]
      simp only [List.map_cons, List.nodup_cons]
      refine ⟨?_, ih (key a :: seen)⟩
      intro hmem
      obtain ⟨x, hx, hkx⟩ := List.mem_map.mp hmem
      have := (mem_removeDupsAux_first key l (key a :: seen) x hx).1
      exact this (by simp [hkx])

theorem removeDupsAux_covers {α κ : Type} [DecidableEq κ] (key : α → κ) :
    ∀ (l : List α) (seen : List κ) (x : α), x ∈ l →
      key x ∈ seen ∨ ∃ y ∈ removeDupsAux key seen l, key y = key x := by
  intro l
  induction l with
  | nil => intro seen x hx; simp at hx
  | cons a l ih =>
    intro seen x hx
    unfold removeDupsAux
    by_cases h : key a ∈ seen
    · simp only [if_pos h]
      rcases List.mem_cons.mp hx with rfl | hx'
      · exact Or.inl h
      · exact ih seen x hx'
    · simp only [if_neg h]
      rcases List.mem_cons.mp hx with rfl | hx'
      · exact Or.inr ⟨x, List.mem_cons_self _ _, rfl⟩
      · rcases ih (key a :: seen) x hx' with hin | ⟨y, hy, hky⟩
        · rcases List.mem_cons.mp hin with he | hin'
          · exact Or.inr ⟨a, List.mem_cons_self _ _, he.symm⟩
          · exact Or.inl hin'
        · exact Or.inr ⟨y, List.mem_cons_of_mem _ hy, hky⟩

/-- C5: for every input record set, the deduplication step emits at most
one row per key value (the emitted key column has no duplicates), the
retained row for each key is the first-encountered row with that key
(it is what find? returns on the input), and every key value present in
the input is represented by some emitted row. -/
theorem remove_duplicates_first_wins {α κ : Type} [DecidableEq κ] (key : α → κ) (df : List α) :
    ((remove_duplicates key df).map key).Nodup
    ∧ (∀ x ∈ remove_duplicates key df, df.find? (fun y => decide (key y = key x)) = some x)
    ∧ (∀ x ∈ df, ∃ y ∈ remove_duplicates key df, key y = key x) := by
  refine ⟨removeDupsAux_nodup_keys key df [], ?_, ?_⟩
  · intro x hx
    exact (mem_removeDupsAux_first key df [] x hx).2
  · intro x hx
    rcases removeDupsAux_covers key df [] x hx with h | h
    · simp at h
    · exact h

/-- C5 witness: on the concrete list [1, 2, 1] the retained row for key 1
is the first occurrence. -/
theorem remove_duplicates_first_wins_witness :
    ([1, 2, 1] : List Int).find? (fun y => decide (y = 1)) = some 1 :=
  (remove_duplicates_first_wins (fun n : Int => n) [1, 2, 1]).2.1 1 (by decide)

/-! ## C3: quarter computation -/

/-- C3: for every date of the date dimension with a calendar month, the
quarter is (month - 1) / 3 + 1, months 1-3 give quarter 1, 4-6 give 2,
7-9 give 3, 10-12 give 4, and quarter_name is the letter Q followed by
the quarter. -/
theorem quarter_of_month (d : Date) (h1 : 1 ≤ d.month) (h2 : d.month ≤ 12) :
    (mkDateRow d).quarter = (d.month - 1) / 3 + 1
    ∧ (d.month ≤ 3 → (mkDateRow d).quarter = 1)
    ∧ (4 ≤ d.month → d.month ≤ 6 → (mkDateRow d).quarter = 2)
    ∧ (7 ≤ d.month → d.month ≤ 9 → (mkDateRow d).quarter = 3)
    ∧ (10 ≤ d.month → (mkDateRow d).quarter = 4)
    ∧ (mkDateRow d).quarter_name = "Q" ++ toString ((mkDateRow d).quarter) := by
  have hq : (mkDateRow d).quarter = (d.month - 1) / 3 + 1 := rfl
  have hn : (mkDateRow d).quarter_name = "Q" ++ toString ((mkDateRow d).quarter) := rfl
  refine ⟨hq, ?_, ?_, ?_, ?_, hn⟩ <;> intros <;> rw [hq] <;> omega

/-- C3 witness: the date 2024-03-15 of the end-to-end scenario lands in
quarter 1. -/
theorem quarter_of_month_witness : (mkDateRow ⟨2024, 3, 15⟩).quarter = 1 :=
  (quarter_of_month ⟨2024, 3, 15⟩ (by decide) (by decide)).2.1 (by decide)

/-! ## C4: weekend flag and day-of-week name -/

/-- C4: the weekday index is always a valid index into the fixed 7-entry
name table (Monday = 0 ... Sunday = 6), is_weekend holds exactly when
day_of_week is Saturday or Sunday, day_of_week is the table entry at the
weekday index, and the leap day 2024-02-29 is a Thursday and not a
weekend. -/
theorem weekend_iff_saturday_or_sunday (d : Date) :
    d.weekday < 7
    ∧ ((mkDateRow d).is_weekend = true ↔
        ((mkDateRow d).day_of_week = "Saturday" ∨ (mkDateRow d).day_of_week = "Sunday"))
    ∧ (mkDateRow d).day_of_week = day_names.getD (d.weekday) ""
    ∧ (mkDateRow ⟨2024, 2, 29⟩).day_of_week = "Thursday"
    ∧ (mkDateRow ⟨2024, 2, 29⟩).is_weekend = false := by
  have h7 : d.weekday < 7 := Nat.mod_lt _ (by decide)
  refine ⟨h7, ?_, rfl, by decide, by decide⟩
  simp only [mkDateRow]
  revert h7
  generalize d.weekday = w
  intro h7
  interval_cases w <;> decide

/-! ## C6: quality filter on the sales set -/

/-- C6: every row of the cleaned sales set has positive numeric quantity,
unit_price and total_amount; consequently a raw row whose quantity
coerces to 0, whose unit_price coerces to a negative number, or whose
total_amount does not coerce to a number, contributes no cleaned row. -/
theorem sales_quality_filter (df : List RawSales) :
    (∀ c ∈ transform_sales_data df, 0 < c.quantity ∧ 0 < c.unit_price ∧ 0 < c.total_amount)
    ∧ (∀ r ∈ df, (r.quantity.toNumeric = some 0 ∨
        (∃ p, r.unit_price.toNumeric = some p ∧ p < 0) ∨
        r.total_amount.toNumeric = none) →
        ∀ c, rowNumeric r = some c → c ∉ transform_sales_data df) := by
  have main : ∀ c ∈ transform_sales_data df,
      0 < c.quantity ∧ 0 < c.unit_price ∧ 0 < c.total_amount := by
    intro c hc
    unfold transform_sales_data at hc
    simp only [List.mem_filter, Bool.and_eq_true, decide_eq_true_eq] at hc
    exact ⟨hc.2.1.1, hc.2.1.2, hc.2.2⟩
  refine ⟨main, ?_⟩
  intro r _hr hbad c hc hmem
  have hpos := main c hmem
  unfold rowNumeric at hc
  rcases hbad with hq | ⟨p, hp, hpneg⟩ | ht
  · rcases h2 : r.unit_price.toNumeric with _ | p2 <;>
      rcases h3 : r.total_amount.toNumeric with _ | t3 <;>
      rw [hq, h2, h3] at hc <;> simp at hc
    rw [← hc] at hpos
    exact absurd hpos.1 (by norm_num)
  · rcases h1 : r.quantity.toNumeric with _ | q1 <;>
      rcases h3 : r.total_amount.toNumeric with _ | t3 <;>
      rw [h1, hp, h3] at hc <;> simp at hc
    rw [← hc] at hpos
    have := hpos.2.1
    simp only at this
    exact absurd this (not_lt.mpr (le_of_lt hpneg))
  · rcases h1 : r.quantity.toNumeric with _ | q1 <;>
      rcases h2 : r.unit_price.toNumeric with _ | p2 <;>
      rw [h1, h2, ht] at hc <;> simp at hc

/-- C6 witness: a concrete raw row with quantity 0 and a concrete raw row
with non-numeric total_amount produce no cleaned rows. -/
theorem sales_quality_filter_witness :
    (⟨1, ⟨2024, 3, 15⟩, 1, 10, RawField.num 0, RawField.num 2, RawField.num 0⟩ : RawSales) ∈
      ([⟨1, ⟨2024, 3, 15⟩, 1, 10, RawField.num 0, RawField.num 2, RawField.num 0⟩] : List RawSales) →
    (⟨1, ⟨2024, 3, 15⟩, 1, 10, 0, 2, 0⟩ : CleanSales) ∉
      transform_sales_data [⟨1, ⟨2024, 3, 15⟩, 1, 10, RawField.num 0, RawField.num 2, RawField.num 0⟩] :=
  fun hmem =>
    (sales_quality_filter [⟨1, ⟨2024, 3, 15⟩, 1, 10, RawField.num 0, RawField.num 2, RawField.num 0⟩]).2
      _ hmem (Or.inl (by decide)) _ (by decide)

/-! ## C2: unit_cost handling in the product cleaner -/

/-- A product row whose unit_cost cell is missing. -/
def exProdMissing : RawProduct :=
  ⟨RawField.num 10, some "Widget", some "Tools", some "Hand", RawField.missing⟩

/-- A product row whose unit_cost is the negative number -5. -/
def exProdNeg : RawProduct :=
  ⟨RawField.num 10, some "Widget", some "Tools", some "Hand", RawField.num (-5)⟩

/-- C2 counterexample: a product record with an absent unit_cost is not
retained at all (the null filter removes it before the fill step), and a
record with a negative unit_cost is retained with its negative value, so
the cleaned set does not always have non-negative unit_cost. -/
theorem products_unit_cost_claim_false :
    transform_products_data [exProdMissing] = []
    ∧ transform_products_data [exProdNeg] =
        [⟨10, "Widget", "Tools", "Hand", -5⟩]
    ∧ ((-5 : ℚ) < 0) := by
  refine ⟨by decide, by decide, by decide⟩

/-- C2 amended: every cleaned product row stems from an input row whose
unit_cost cell was present (rows with absent unit_cost are removed by the
null filter), and its unit_cost is the numeric coercion of that cell with
coercion failures (non-numeric text) replaced by 0; no sign constraint
holds. -/
theorem products_unit_cost_amended (df : List RawProduct) :
    ∀ c ∈ transform_products_data df, ∃ r ∈ df,
      r.unit_cost ≠ RawField.missing
      ∧ c.unit_cost = Option.getD (r.unit_cost.toNumeric) 0
      ∧ (∀ s, r.unit_cost = RawField.text s → c.unit_cost = 0) := by
  intro c hc
  unfold transform_products_data at hc
  simp only [List.mem_filterMap] at hc
  obtain ⟨r, hr, hmap⟩ := hc
  simp only [List.mem_filter, Bool.and_eq_true, Bool.not_eq_true'] at hr
  obtain ⟨hr1, hflags⟩ := hr
  have hrdf : r ∈ df :=
    (removeDupsAux_sublist (fun r : RawProduct => r.product_id) df []).mem hr1
  have hnm : r.unit_cost ≠ RawField.missing := by
    intro he
    have := hflags.2
    rw [he] at this
    simp [RawField.isMissing] at this
  refine ⟨r, hrdf, hnm, ?_, ?_⟩
  · rcases hpid : r.product_id.toNumeric with _ | pid <;> rw [hpid] at hmap <;> simp at hmap
    rw [← hmap]
  · intro s hs
    rcases hpid : r.product_id.toNumeric with _ | pid <;> rw [hpid] at hmap <;> simp at hmap
    rw [← hmap]
    simp [hs, RawField.toNumeric]

/-- C2 amended witness: the cleaned row for the negative-cost input has
unit_cost equal to the coerced cell value. -/
theorem products_unit_cost_amended_witness :
    ∃ r ∈ [exProdNeg], r.unit_cost ≠ RawField.missing
      ∧ (⟨10, "Widget", "Tools", "Hand", -5⟩ : CleanProduct).unit_cost
          = Option.getD (r.unit_cost.toNumeric) 0
      ∧ (∀ s, r.unit_cost = RawField.text s →
          (⟨10, "Widget", "Tools", "Hand", -5⟩ : CleanProduct).unit_cost = 0) :=
  products_unit_cost_amended [exProdNeg] _ (by decide)

/-! ## C1 and C10: surrogate-key resolution in load_fact_sales -/

theorem resolve_facts_length (lk : Lookups) :
    ∀ l : List CleanSales,
      (resolve_facts lk l).1.length + (resolve_facts lk l).2 = l.length := by
  intro l
  induction l with
  | nil => simp [resolve_facts]
  | cons r rs ih =>
    simp only [resolve_facts]
    split
    · simp only [List.length_cons]
      omega
    · simp only [List.length_cons]
      omega

/-- The sale date used by the concrete resolution examples. -/
def exDate : Date := ⟨2024, 3, 15⟩

/-- A warehouse lookup state in which every natural key of rSale is
present but the date surrogate key is the (falsy) integer 0. -/
def lkZero : Lookups := ⟨[(exDate, 0)], [(1, 1)], [(10, 1)]⟩

/-- A cleaned sales record whose natural keys are all present in lkZero
and lkOne. -/
def rSale : CleanSales := ⟨100, exDate, 1, 10, 3, 2, 6⟩

/-- The rational 5/2, a non-integral quantity value that survives the
sales cleaner. -/
def ratFiveHalves : ℚ := ⟨5, 2, by decide, by decide⟩

/-- A lookup state with all three surrogate keys nonzero. -/
def lkOne : Lookups := ⟨[(exDate, 7)], [(1, 8)], [(10, 9)]⟩

/-- A cleaned sales record with the fractional quantity 5/2. -/
def rSaleHalf : CleanSales := ⟨100, exDate, 1, 10, ratFiveHalves, 2, 5⟩

/-- C1 counterexample: (i) a record all three of whose lookups hit is
nevertheless discarded and counted as skipped, because the resolved date
key is 0 and the loader tests truthiness rather than presence, so a
record is not discarded only-if a lookup misses; (ii) the emitted fact
does not always carry the record's quantity: quantity 5/2 is emitted as
the integer 2. -/
theorem fact_resolution_claim_false :
    ((lkZero.date_lookup.lookup rSale.sale_date).isSome = true
      ∧ (lkZero.customer_lookup.lookup rSale.customer_id).isSome = true
      ∧ (lkZero.product_lookup.lookup rSale.product_id).isSome = true
      ∧ resolve_facts lkZero [rSale] = ([], 1))
    ∧ ((resolve_facts lkOne [rSaleHalf]).1.map (fun f => f.quantity) = [2]
      ∧ rSaleHalf.quantity ≠ (2 : ℚ)) := by
  exact ⟨⟨by decide, by decide, by decide, by decide⟩, by decide, by decide⟩

/-- C1 amended: a cleaned sales record is discarded and the skip counter
incremented exactly when some lookup misses or resolves to the falsy
surrogate key 0; otherwise the fact tuple with the three resolved keys,
the quantity cast to int, and the record's unit_price and total_amount
is emitted; every record is either emitted or counted, never an error. -/
theorem fact_resolution_amended (lk : Lookups) (r : CleanSales) (rs : List CleanSales) :
    ((lk.date_lookup.lookup r.sale_date = none
      ∨ lk.date_lookup.lookup r.sale_date = some 0
      ∨ lk.customer_lookup.lookup r.customer_id = none
      ∨ lk.customer_lookup.lookup r.customer_id = some 0
      ∨ lk.product_lookup.lookup r.product_id = none
      ∨ lk.product_lookup.lookup r.product_id = some 0) →
      resolve_facts lk (r :: rs) = ((resolve_facts lk rs).1, (resolve_facts lk rs).2 + 1))
    ∧ (∀ dk ck pk : Int,
        lk.date_lookup.lookup r.sale_date = some dk → dk ≠ 0 →
        lk.customer_lookup.lookup r.customer_id = some ck → ck ≠ 0 →
        lk.product_lookup.lookup r.product_id = some pk → pk ≠ 0 →
        resolve_facts lk (r :: rs) =
          (mkFactRecord r dk ck pk :: (resolve_facts lk rs).1, (resolve_facts lk rs).2))
    ∧ (resolve_facts lk (r :: rs)).1.length + (resolve_facts lk (r :: rs)).2
        = (r :: rs).length := by
  refine ⟨?_, ?_, resolve_facts_length lk (r :: rs)⟩
  · intro hmiss
    have hfalse : (truthyKey (lk.date_lookup.lookup r.sale_date)
        && truthyKey (lk.customer_lookup.lookup r.customer_id)
        && truthyKey (lk.product_lookup.lookup r.product_id)) = false := by
      rcases hmiss with h | h | h | h | h | h <;> rw [h] <;> simp [truthyKey]
    simp only [resolve_facts]
    rw [hfalse]
    simp
  · intro dk ck pk hdk hdk0 hck hck0 hpk hpk0
    have htrue : (truthyKey (lk.date_lookup.lookup r.sale_date)
        && truthyKey (lk.customer_lookup.lookup r.customer_id)
        && truthyKey (lk.product_lookup.lookup r.product_id)) = true := by
      rw [hdk, hck, hpk]
      simp [truthyKey, hdk0, hck0, hpk0]
    simp only [resolve_facts]
    rw [htrue]
    simp [hdk, hck, hpk]

/-- C1 amended witness: in the all-hits, all-nonzero lookup state the
record rSale is emitted with the resolved keys 7, 8, 9. -/
theorem fact_resolution_amended_witness :
    resolve_facts lkOne (rSale :: []) =
      (mkFactRecord rSale 7 8 9 :: (resolve_facts lkOne []).1, (resolve_facts lkOne []).2) :=
  (fact_resolution_amended lkOne rSale []).2.1 7 8 9
    (by decide) (by decide) (by decide) (by decide) (by decide) (by decide)

/-- C10: there is a lookup state and a record for which all three lookups
succeed and the record is still skipped (namely lkZero and rSale, where
the resolved date key is 0); in general, whenever all three lookups
succeed but some resolved surrogate key equals 0, the record is skipped
and counted, because the loader tests Python truthiness of the values
rather than presence of the keys. -/
theorem zero_surrogate_key_skips :
    (∃ (lk : Lookups) (r : CleanSales),
      (lk.date_lookup.lookup r.sale_date).isSome = true
      ∧ (lk.customer_lookup.lookup r.customer_id).isSome = true
      ∧ (lk.product_lookup.lookup r.product_id).isSome = true
      ∧ resolve_facts lk [r] = ([], 1))
    ∧ (∀ (lk : Lookups) (r : CleanSales) (rs : List CleanSales) (dk ck pk : Int),
        lk.date_lookup.lookup r.sale_date = some dk →
        lk.customer_lookup.lookup r.customer_id = some ck →
        lk.product_lookup.lookup r.product_id = some pk →
        (dk = 0 ∨ ck = 0 ∨ pk = 0) →
        resolve_facts lk (r :: rs) = ((resolve_facts lk rs).1, (resolve_facts lk rs).2 + 1)) := by
  constructor
  · exact ⟨lkZero, rSale, by decide, by decide, by decide, by decide⟩
  · intro lk r rs dk ck pk hdk hck hpk hzero
    have hfalse : (truthyKey (lk.date_lookup.lookup r.sale_date)
        && truthyKey (lk.customer_lookup.lookup r.customer_id)
        && truthyKey (lk.product_lookup.lookup r.product_id)) = false := by
      rw [hdk, hck, hpk]
      rcases hzero with rfl | rfl | rfl <;> simp [truthyKey]
    simp only [resolve_facts]
    rw [hfalse]
    simp

/-- C10 witness: the zero-key skip at the concrete state lkZero. -/
theorem zero_surrogate_key_skips_witness :
    resolve_facts lkZero (rSale :: []) =
      ((resolve_facts lkZero []).1, (resolve_facts lkZero []).2 + 1) :=
  zero_surrogate_key_skips.2 lkZero rSale [] 0 1 1
    (by decide) (by decide) (by decide) (Or.inl rfl)

/-! ## C7: the date dimension builder -/

theorem orderedInsert_mkDateRow (a : Date) :
    ∀ l : List Date,
      List.orderedInsert RowLe (mkDateRow a) (l.map mkDateRow)
        = (List.orderedInsert Date.Le a l).map mkDateRow := by
  intro l
  induction l with
  | nil => simp [List.orderedInsert]
  | cons b l ih =>
    simp only [List.map_cons, List.orderedInsert]
    by_cases h : Date.Le a b
    · rw [if_pos h, if_pos]
      · simp
      · exact h
    · rw [if_neg h, if_neg]
      · simp [ih]
      · exact h

theorem insertionSort_mkDateRow :
    ∀ l : List Date,
      List.insertionSort RowLe (l.map mkDateRow)
        = (List.insertionSort Date.Le l).map mkDateRow := by
  intro l
  induction l with
  | nil => simp [List.insertionSort]
  | cons a l ih =>
    simp only [List.map_cons, List.insertionSort, ih, orderedInsert_mkDateRow]

theorem create_date_dimension_eq (sales : List CleanSales) :
    create_date_dimension sales
      = (List.insertionSort Date.Le
          (remove_duplicates (fun d => d) (sales.map (fun r => r.sale_date)))).map mkDateRow := by
  unfold create_date_dimension
  exact insertionSort_mkDateRow _

theorem remove_duplicates_id_nodup (l : List Date) :
    (remove_duplicates (fun d => d) l).Nodup := by
  have h := removeDupsAux_nodup_keys (fun d : Date => d) l []
  rwa [List.map_id'] at h

theorem mem_remove_duplicates_id (l : List Date) (d : Date) :
    d ∈ remove_duplicates (fun x => x) l ↔ d ∈ l := by
  constructor
  · intro h
    exact (removeDupsAux_sublist (fun x : Date => x) l []).mem h
  · intro h
    rcases removeDupsAux_covers (fun x : Date => x) l [] d h with hc | ⟨y, hy, hky⟩
    · simp at hc
    · exact hky ▸ hy

theorem remove_duplicates_id_perm {l₁ l₂ : List Date} (h : l₁.Perm l₂) :
    (remove_duplicates (fun d => d) l₁).Perm (remove_duplicates (fun d => d) l₂) := by
  rw [List.perm_ext_iff_of_nodup (remove_duplicates_id_nodup l₁) (remove_duplicates_id_nodup l₂)]
  intro d
  rw [mem_remove_duplicates_id, mem_remove_duplicates_id]
  exact h.mem_iff

theorem create_date_dimension_dates (sales : List CleanSales) :
    (create_date_dimension sales).map (fun row => row.sale_date)
      = List.insertionSort Date.Le
          (remove_duplicates (fun d => d) (sales.map (fun r => r.sale_date))) := by
  rw [create_date_dimension_eq, List.map_map]
  have : ((fun row : DateDimRow => row.sale_date) ∘ mkDateRow) = fun d : Date => d := by
    funext d
    rfl
  rw [this, List.map_id']

/-- C7: the date dimension has one row per distinct sale_date of the
cleaned sales set (its sale_date column has no duplicates and carries
exactly the sale_date values occurring in the input), every row is the
pure attribute computation applied to its date, the rows are sorted
ascending by sale_date, and the output depends only on the multiset of
sale_date values of the input. -/
theorem date_dimension_builder_spec (sales : List CleanSales) :
    ((create_date_dimension sales).map (fun row => row.sale_date)).Nodup
    ∧ (∀ d : Date, d ∈ (create_date_dimension sales).map (fun row => row.sale_date) ↔
        d ∈ sales.map (fun r => r.sale_date))
    ∧ (∀ row ∈ create_date_dimension sales, row = mkDateRow row.sale_date)
    ∧ List.Sorted RowLe (create_date_dimension sales)
    ∧ (∀ sales' : List CleanSales,
        (sales'.map (fun r => r.sale_date)).Perm (sales.map (fun r => r.sale_date)) →
        create_date_dimension sales' = create_date_dimension sales) := by
  have hperm := List.perm_insertionSort Date.Le
      (remove_duplicates (fun d => d) (sales.map (fun r => r.sale_date)))
  refine ⟨?_, ?_, ?_, ?_, ?_⟩
  · rw [create_date_dimension_dates]
    exact hperm.nodup_iff.mpr (remove_duplicates_id_nodup _)
  · intro d
    rw [create_date_dimension_dates]
    rw [hperm.mem_iff, mem_remove_duplicates_id]
  · intro row hrow
    rw [create_date_dimension_eq] at hrow
    obtain ⟨d, _, rfl⟩ := List.mem_map.mp hrow
    rfl
  · unfold create_date_dimension
    exact List.sorted_insertionSort RowLe _
  · intro sales' hp
    rw [create_date_dimension_eq, create_date_dimension_eq]
    have hd := remove_duplicates_id_perm hp
    have hsorted1 := List.sorted_insertionSort Date.Le
        (remove_duplicates (fun d => d) (sales'.map (fun r => r.sale_date)))
    have hsorted2 := List.sorted_insertionSort Date.Le
        (remove_duplicates (fun d => d) (sales.map (fun r => r.sale_date)))
    have hp2 : (List.insertionSort Date.Le
        (remove_duplicates (fun d => d) (sales'.map (fun r => r.sale_date)))).Perm
        (List.insertionSort Date.Le
        (remove_duplicates (fun d => d) (sales.map (fun r => r.sale_date)))) :=
      ((List.perm_insertionSort Date.Le _).trans hd).trans
        (List.perm_insertionSort Date.Le _).symm
    rw [List.eq_of_perm_of_sorted hp2 hsorted1 hsorted2]

/-- A second cleaned sales record on the previous day, for the
permutation-invariance witness. -/
def rSaleB : CleanSales := ⟨101, ⟨2024, 3, 14⟩, 1, 10, 1, 1, 1⟩

/-- C7 witness: reordering the input leaves the date dimension unchanged. -/
theorem date_dimension_builder_spec_witness :
    create_date_dimension [rSaleB, rSale] = create_date_dimension [rSale, rSaleB] :=
  (date_dimension_builder_spec [rSale, rSaleB]).2.2.2.2 [rSaleB, rSale] (by decide)

/-! ## C8: the fact-table upsert overwrites measures only -/

/-- C8: when the fact upsert hits a conflict on sale_id (some stored row
already carries the incoming sale_id), the serial sequence is untouched
and the table is rewritten row for row: every row keeps its sale_id,
date_key, customer_key and product_key; the rows matching the incoming
sale_id get the new quantity, unit_price and total_amount; all other
rows are unchanged. -/
theorem fact_upsert_overwrites_measures_only
    (t : List FactRow) (n : Int) (s : FactRow) (old : FactRow)
    (hold : old ∈ t) (hid : old.sale_id = s.sale_id) :
    (upsertRow factOps (t, n) s).2 = n
    ∧ List.Forall₂ (fun row row' : FactRow =>
        row'.sale_id = row.sale_id
        ∧ row'.date_key = row.date_key
        ∧ row'.customer_key = row.customer_key
        ∧ row'.product_key = row.product_key
        ∧ (row.sale_id = s.sale_id →
            row'.quantity = s.quantity ∧ row'.unit_price = s.unit_price
            ∧ row'.total_amount = s.total_amount)
        ∧ (row.sale_id ≠ s.sale_id → row' = row))
        t (upsertRow factOps (t, n) s).1 := by
  have hany : t.any (fun row => decide (factOps.rowKey row = factOps.recKey s)) = true :=
    List.any_eq_true.mpr ⟨old, hold, by simp [factOps, hid]⟩
  simp only [upsertRow] at *
  rw [if_pos hany]
  refine ⟨rfl, ?_⟩
  rw [List.forall₂_map_right_iff]
  rw [List.forall₂_same]
  intro row _hrow
  by_cases hcase : factOps.rowKey row = factOps.recKey s
  · rw [if_pos hcase]
    have hcase' : row.sale_id = s.sale_id := hcase
    refine ⟨rfl, rfl, rfl, rfl, fun _ => ⟨rfl, rfl, rfl⟩, fun hne => absurd hcase' hne⟩
  · rw [if_neg hcase]
    have hcase' : ¬ row.sale_id = s.sale_id := hcase
    exact ⟨rfl, rfl, rfl, rfl, fun he => absurd he hcase', fun _ => rfl⟩

/-- A stored fact row used by the C8 witness. -/
def exFactOld : FactRow := ⟨100, 7, 8, 9, 3, 2, 6⟩

/-- An incoming fact record with the same sale_id but different measures
and different (ignored) linkage keys. -/
def exFactNew : FactRow := ⟨100, 1, 2, 3, 4, 5, 20⟩

/-- C8 witness: upserting exFactNew over exFactOld keeps the stored
linkage keys 7, 8, 9 and overwrites the measures. -/
theorem fact_upsert_overwrites_measures_only_witness :
    (upsertRow factOps ([exFactOld], 11) exFactNew).2 = 11
    ∧ List.Forall₂ (fun row row' : FactRow =>
        row'.sale_id = row.sale_id
        ∧ row'.date_key = row.date_key
        ∧ row'.customer_key = row.customer_key
        ∧ row'.product_key = row.product_key
        ∧ (row.sale_id = exFactNew.sale_id →
            row'.quantity = exFactNew.quantity ∧ row'.unit_price = exFactNew.unit_price
            ∧ row'.total_amount = exFactNew.total_amount)
        ∧ (row.sale_id ≠ exFactNew.sale_id → row' = row))
        [exFactOld] (upsertRow factOps ([exFactOld], 11) exFactNew).1 :=
  fact_upsert_overwrites_measures_only [exFactOld] 11 exFactNew exFactOld
    (by decide) (by decide)

/-! ## Generic upsert lemmas (towards C9) -/

theorem any_map_general {α β : Type} (f : α → β) (p : β → Bool) :
    ∀ l : List α, (l.map f).any p = l.any (fun a => p (f a)) := by
  intro l
  induction l with
  | nil => rfl
  | cons a l ih => simp [List.any_cons, ih]

/-- A record is absorbed by a table when some row carries its conflict
key and updating any such row with the record changes nothing. -/
def Absorbed {ρ σ κ : Type} [DecidableEq κ] (ops : UpsertOps ρ σ κ)
    (t : List ρ) (s : σ) : Prop :=
  (∃ row ∈ t, ops.rowKey row = ops.recKey s)
  ∧ ∀ row ∈ t, ops.rowKey row = ops.recKey s → ops.updRow row s = row

theorem upsertRow_absorbed {ρ σ κ : Type} [DecidableEq κ] (ops : UpsertOps ρ σ κ)
    (t : List ρ) (n : Int) (s : σ) (h : Absorbed ops t s) :
    upsertRow ops (t, n) s = (t, n) := by
  obtain ⟨⟨row0, hrow0, hkey0⟩, hfix⟩ := h
  have hany : t.any (fun row => decide (ops.rowKey row = ops.recKey s)) = true :=
    List.any_eq_true.mpr ⟨row0, hrow0, by simp [hkey0]⟩
  simp only [upsertRow]
  rw [if_pos hany]
  have hmap : t.map (fun row => if ops.rowKey row = ops.recKey s then ops.updRow row s else row)
      = t.map (fun row => row) := by
    apply List.map_congr_left
    intro row hrow
    by_cases hk : ops.rowKey row = ops.recKey s
    · rw [if_pos hk]
      exact hfix row hrow hk
    · rw [if_neg hk]
  rw [hmap, List.map_id']

theorem upsertRow_absorbs_self {ρ σ κ : Type} [DecidableEq κ] (ops : UpsertOps ρ σ κ)
    (t : List ρ) (n : Int) (s : σ) :
    Absorbed ops (upsertRow ops (t, n) s).1 s := by
  simp only [upsertRow]
  by_cases hany : t.any (fun row => decide (ops.rowKey row = ops.recKey s)) = true
  · rw [if_pos hany]
    obtain ⟨row0, hrow0, hkey0⟩ := List.any_eq_true.mp hany
    simp only [decide_eq_true_eq] at hkey0
    constructor
    · refine ⟨ops.updRow row0 s, ?_, ?_⟩
      · refine List.mem_map.mpr ⟨row0, hrow0, ?_⟩
        rw [if_pos hkey0]
      · rw [ops.key_upd, hkey0]
    · intro row' hrow' hkey'
      obtain ⟨row, hrow, hfrow⟩ := List.mem_map.mp hrow'
      by_cases hk : ops.rowKey row = ops.recKey s
      · rw [if_pos hk] at hfrow
        rw [← hfrow]
        exact ops.upd_upd row s
      · rw [if_neg hk] at hfrow
        rw [← hfrow] at hkey'
        exact absurd hkey' hk
  · rw [if_neg hany]
    constructor
    · exact ⟨ops.mkRow n s, List.mem_append_right _ (List.mem_cons_self _ _), ops.key_mk n s⟩
    · intro row' hrow' hkey'
      rcases List.mem_append.mp hrow' with hin | hin
      · exfalso
        apply hany
        exact List.any_eq_true.mpr ⟨row', hin, by simp [hkey']⟩
      · rcases List.mem_cons.mp hin with rfl | hfalse
        · exact ops.upd_mk n s
        · simp at hfalse

theorem upsertRow_absorbed_preserved {ρ σ κ : Type} [DecidableEq κ] (ops : UpsertOps ρ σ κ)
    (t : List ρ) (n : Int) (s s' : σ) (hne : ops.recKey s' ≠ ops.recKey s)
    (h : Absorbed ops t s) :
    Absorbed ops (upsertRow ops (t, n) s').1 s := by
  obtain ⟨⟨row0, hrow0, hkey0⟩, hfix⟩ := h
  simp only [upsertRow]
  by_cases hany : t.any (fun row => decide (ops.rowKey row = ops.recKey s')) = true
  · rw [if_pos hany]
    constructor
    · refine ⟨row0, List.mem_map.mpr ⟨row0, hrow0, ?_⟩, hkey0⟩
      rw [if_neg]
      rw [hkey0]
      exact fun he => hne he.symm
    · intro row' hrow' hkey'
      obtain ⟨row, hrow, hfrow⟩ := List.mem_map.mp hrow'
      by_cases hk : ops.rowKey row = ops.recKey s'
      · rw [if_pos hk] at hfrow
        rw [← hfrow] at hkey'
        rw [ops.key_upd] at hkey'
        exact absurd (hk.symm.trans hkey') hne
      · rw [if_neg hk] at hfrow
        rw [← hfrow]
        rw [← hfrow] at hkey'
        exact hfix row hrow hkey'
  · rw [if_neg hany]
    constructor
    · exact ⟨row0, List.mem_append_left _ hrow0, hkey0⟩
    · intro row' hrow' hkey'
      rcases List.mem_append.mp hrow' with hin | hin
      · exact hfix row' hin hkey'
      · rcases List.mem_cons.mp hin with rfl | hfalse
        · rw [ops.key_mk] at hkey'
          exact absurd hkey' hne
        · simp at hfalse

theorem upsertBatch_absorbed_preserved {ρ σ κ : Type} [DecidableEq κ] (ops : UpsertOps ρ σ κ)
    (s : σ) :
    ∀ (l : List σ) (st : List ρ × Int),
      (∀ s' ∈ l, ops.recKey s' ≠ ops.recKey s) → Absorbed ops st.1 s →
      Absorbed ops (upsertBatch ops st l).1 s := by
  intro l
  induction l with
  | nil => intro st _ h; exact h
  | cons a l ih =>
    intro st hne h
    have hstep : Absorbed ops (upsertRow ops st a).1 s :=
      upsertRow_absorbed_preserved ops st.1 st.2 s a
        (hne a (List.mem_cons_self _ _)) h
    exact ih (upsertRow ops st a) (fun s' hs' => hne s' (List.mem_cons_of_mem _ hs')) hstep

theorem upsertBatch_absorbs_all {ρ σ κ : Type} [DecidableEq κ] (ops : UpsertOps ρ σ κ) :
    ∀ (l : List σ) (st : List ρ × Int),
      (l.map ops.recKey).Nodup →
      ∀ s ∈ l, Absorbed ops (upsertBatch ops st l).1 s := by
  intro l
  induction l with
  | nil => intro st _ s hs; simp at hs
  | cons a l ih =>
    intro st hnd s hs
    rw [List.map_cons, List.nodup_cons] at hnd
    rcases List.mem_cons.mp hs with rfl | hs'
    · refine upsertBatch_absorbed_preserved ops s l (upsertRow ops st s) ?_ ?_
      · intro s' hs' he
        exact hnd.1 (he ▸ List.mem_map_of_mem ops.recKey hs')
      · exact upsertRow_absorbs_self ops st.1 st.2 s
    · exact ih (upsertRow ops st a) hnd.2 s hs'

theorem upsertBatch_absorbed_id {ρ σ κ : Type} [DecidableEq κ] (ops : UpsertOps ρ σ κ) :
    ∀ (l : List σ) (st : List ρ × Int),
      (∀ s ∈ l, Absorbed ops st.1 s) → upsertBatch ops st l = st := by
  intro l
  induction l with
  | nil => intro st _; rfl
  | cons a l ih =>
    intro st h
    have hstep : upsertRow ops st a = st :=
      upsertRow_absorbed ops st.1 st.2 a (h a (List.mem_cons_self _ _))
    show upsertBatch ops (upsertRow ops st a) l = st
    rw [hstep]
    exact ih st (fun s hs => h s (List.mem_cons_of_mem _ hs))

/-- Upserting the same batch twice is the same as upserting it once,
provided the batch has no duplicate conflict keys. -/
theorem upsertBatch_twice {ρ σ κ : Type} [DecidableEq κ] (ops : UpsertOps ρ σ κ)
    (st : List ρ × Int) (l : List σ) (hnd : (l.map ops.recKey).Nodup) :
    upsertBatch ops (upsertBatch ops st l) l = upsertBatch ops st l :=
  upsertBatch_absorbed_id ops l _ (fun s hs => upsertBatch_absorbs_all ops l st hnd s hs)

/-! ## Erasure commutation: the upsert seen through a column projection -/

theorem upsertRow_map_comm {ρ δ σ κ : Type} [DecidableEq κ]
    (ops : UpsertOps ρ σ κ) (opsD : UpsertOps δ σ κ) (era : ρ → δ)
    (hkey : ∀ row, opsD.rowKey (era row) = ops.rowKey row)
    (hrec : ∀ s, opsD.recKey s = ops.recKey s)
    (hmk : ∀ n s, era (ops.mkRow n s) = opsD.mkRow n s)
    (hupd : ∀ row s, era (ops.updRow row s) = opsD.updRow (era row) s)
    (t : List ρ) (n : Int) (s : σ) :
    upsertRow opsD (t.map era, n) s
      = ((upsertRow ops (t, n) s).1.map era, (upsertRow ops (t, n) s).2) := by
  simp only [upsertRow]
  have hany : (t.map era).any (fun row => decide (opsD.rowKey row = opsD.recKey s))
      = t.any (fun row => decide (ops.rowKey row = ops.recKey s)) := by
    rw [any_map_general]
    have hfun : (fun row => decide (opsD.rowKey (era row) = opsD.recKey s))
        = (fun row : ρ => decide (ops.rowKey row = ops.recKey s)) := by
      funext row
      rw [hkey, hrec]
    rw [hfun]
  rw [hany]
  by_cases h : t.any (fun row => decide (ops.rowKey row = ops.recKey s)) = true
  · rw [if_pos h, if_pos h]
    have hm : (t.map era).map
          (fun row => if opsD.rowKey row = opsD.recKey s then opsD.updRow row s else row)
        = (t.map (fun row => if ops.rowKey row = ops.recKey s then ops.updRow row s else row)).map
            era := by
      rw [List.map_map, List.map_map]
      apply List.map_congr_left
      intro row _hrow
      simp only [Function.comp_apply]
      by_cases hk : ops.rowKey row = ops.recKey s
      · have hk' : opsD.rowKey (era row) = opsD.recKey s := by
          rw [hkey, hrec]
          exact hk
        rw [if_pos hk', if_pos hk]
        exact (hupd row s).symm
      · have hk' : ¬ opsD.rowKey (era row) = opsD.recKey s := by
          rw [hkey, hrec]
          exact hk
        rw [if_neg hk', if_neg hk]
    rw [hm]
  · rw [if_neg h, if_neg h]
    rw [List.map_append, List.map_cons, List.map_nil, hmk]

theorem upsertBatch_map_comm {ρ δ σ κ : Type} [DecidableEq κ]
    (ops : UpsertOps ρ σ κ) (opsD : UpsertOps δ σ κ) (era : ρ → δ)
    (hkey : ∀ row, opsD.rowKey (era row) = ops.rowKey row)
    (hrec : ∀ s, opsD.recKey s = ops.recKey s)
    (hmk : ∀ n s, era (ops.mkRow n s) = opsD.mkRow n s)
    (hupd : ∀ row s, era (ops.updRow row s) = opsD.updRow (era row) s) :
    ∀ (l : List σ) (t : List ρ) (n : Int),
      upsertBatch opsD (t.map era, n) l
        = ((upsertBatch ops (t, n) l).1.map era, (upsertBatch ops (t, n) l).2) := by
  intro l
  induction l with
  | nil => intro t n; rfl
  | cons a l ih =>
    intro t n
    show upsertBatch opsD (upsertRow opsD (t.map era, n) a) l = _
    rw [upsertRow_map_comm ops opsD era hkey hrec hmk hupd t n a]
    rw [ih (upsertRow ops (t, n) a).1 (upsertRow ops (t, n) a).2]
    rfl

/-! ## The emitted fact records inherit the sale_id column of the input -/

theorem resolve_facts_sale_ids_sublist (lk : Lookups) :
    ∀ l : List CleanSales,
      List.Sublist ((resolve_facts lk l).1.map (fun f => f.sale_id))
        (l.map (fun r => r.sale_id)) := by
  intro l
  induction l with
  | nil => simp [resolve_facts]
  | cons r rs ih =>
    simp only [resolve_facts, List.map_cons]
    split
    · simp only [List.map_cons]
      exact ih.cons₂ r.sale_id
    · exact ih.cons r.sale_id

/-! ## C9: rerunning the load against the state it produced -/

/-- The three dimension loads of load_all, before the fact load. -/
def dimsLoaded (now : Int) (W : Warehouse) (customers : List CleanCustomer)
    (products : List CleanProduct) (dates : List DateDimRow) : Warehouse :=
  load_dim_date (load_dim_product now (load_dim_customer now W customers) products) dates

/-- load_all written out component by component. -/
theorem load_all_components (now : Int) (W : Warehouse) (sales : List CleanSales)
    (customers : List CleanCustomer) (products : List CleanProduct)
    (dates : List DateDimRow) :
    load_all now W sales customers products dates =
      { dim_customer := (upsertBatch (custOps now) (W.dim_customer, W.next_customer_key) customers).1,
        dim_product := (upsertBatch (prodOps now) (W.dim_product, W.next_product_key) products).1,
        dim_date := (upsertBatch dateOps (W.dim_date, W.next_date_key) dates).1,
        fact_sales := (upsertBatch factOps (W.fact_sales, W.next_fact_key)
          (resolve_facts (mkLookups (dimsLoaded now W customers products dates)) sales).1).1,
        next_customer_key := (upsertBatch (custOps now) (W.dim_customer, W.next_customer_key) customers).2,
        next_product_key := (upsertBatch (prodOps now) (W.dim_product, W.next_product_key) products).2,
        next_date_key := (upsertBatch dateOps (W.dim_date, W.next_date_key) dates).2,
        next_fact_key := (upsertBatch factOps (W.fact_sales, W.next_fact_key)
          (resolve_facts (mkLookups (dimsLoaded now W customers products dates)) sales).1).2 } := rfl

/-- Re-upserting a batch over the state it produced, seen through a
column projection that the update clause is invariant on: the projected
table and the sequence come back unchanged even when the second run uses
a different timestamp. -/
theorem upsertBatch_twice_erased {ρ δ σ κ : Type} [DecidableEq κ]
    (ops1 ops2 : UpsertOps ρ σ κ) (opsD : UpsertOps δ σ κ) (era : ρ → δ)
    (hkey1 : ∀ row, opsD.rowKey (era row) = ops1.rowKey row)
    (hrec1 : ∀ s, opsD.recKey s = ops1.recKey s)
    (hmk1 : ∀ n s, era (ops1.mkRow n s) = opsD.mkRow n s)
    (hupd1 : ∀ row s, era (ops1.updRow row s) = opsD.updRow (era row) s)
    (hkey2 : ∀ row, opsD.rowKey (era row) = ops2.rowKey row)
    (hrec2 : ∀ s, opsD.recKey s = ops2.recKey s)
    (hmk2 : ∀ n s, era (ops2.mkRow n s) = opsD.mkRow n s)
    (hupd2 : ∀ row s, era (ops2.updRow row s) = opsD.updRow (era row) s)
    (t : List ρ) (n : Int) (l : List σ) (hnd : (l.map opsD.recKey).Nodup) :
    ((upsertBatch ops2 ((upsertBatch ops1 (t, n) l).1, (upsertBatch ops1 (t, n) l).2) l).1.map era,
     (upsertBatch ops2 ((upsertBatch ops1 (t, n) l).1, (upsertBatch ops1 (t, n) l).2) l).2)
      = ((upsertBatch ops1 (t, n) l).1.map era, (upsertBatch ops1 (t, n) l).2) := by
  have c1 := upsertBatch_map_comm ops1 opsD era hkey1 hrec1 hmk1 hupd1 l t n
  have c2 := upsertBatch_map_comm ops2 opsD era hkey2 hrec2 hmk2 hupd2 l
      (upsertBatch ops1 (t, n) l).1 (upsertBatch ops1 (t, n) l).2
  have tw := upsertBatch_twice opsD (t.map era, n) l hnd
  rw [c1] at tw
  rw [c2] at tw
  exact tw

/-- An empty warehouse with all serial sequences at 1. -/
def emptyWarehouse : Warehouse := ⟨[], [], [], [], 1, 1, 1, 1⟩

/-- The customer record of the end-to-end scenario. -/
def exCust : CleanCustomer := ⟨1, "Alice", "a@x.com", "NY", "US"⟩

/-- C9 counterexample: rerunning the load at a later timestamp changes
the dim_customer table, because the DO UPDATE clause refreshes the
updated_at column even when every attribute is unchanged; so the two
runs do not leave the same values in all four tables. -/
theorem pipeline_rerun_claim_false :
    (load_all 1 (load_all 0 emptyWarehouse [] [exCust] [] []) [] [exCust] [] []).dim_customer
      ≠ (load_all 0 emptyWarehouse [] [exCust] [] []).dim_customer := by
  decide

/-- C9 amended: rerunning the full load against unchanged input and the
warehouse state left by the first run yields the same row counts and the
same values in all four tables except the updated_at columns of
dim_customer and dim_product, which are refreshed to the second run's
timestamp: the timestamp-erased warehouse states of the two runs are
equal, for any two run timestamps, whenever the inputs carry no
duplicate conflict keys (which the cleaner guarantees). -/
theorem pipeline_rerun_idempotent (t1 t2 : Int) (W : Warehouse)
    (sales : List CleanSales) (customers : List CleanCustomer)
    (products : List CleanProduct) (dates : List DateDimRow)
    (hs : (sales.map (fun r => r.sale_id)).Nodup)
    (hc : (customers.map (fun r => r.customer_id)).Nodup)
    (hp : (products.map (fun r => r.product_id)).Nodup)
    (hd : (dates.map (fun r => r.sale_date)).Nodup) :
    eraseW (load_all t2 (load_all t1 W sales customers products dates)
        sales customers products dates)
      = eraseW (load_all t1 W sales customers products dates) := by
  have hCpair := upsertBatch_twice_erased (custOps t1) (custOps t2) custDataOps eraseCustRow
      (fun _ => rfl) (fun _ => rfl) (fun _ _ => rfl) (fun _ _ => rfl)
      (fun _ => rfl) (fun _ => rfl) (fun _ _ => rfl) (fun _ _ => rfl)
      W.dim_customer W.next_customer_key customers hc
  have hPpair := upsertBatch_twice_erased (prodOps t1) (prodOps t2) prodDataOps eraseProdRow
      (fun _ => rfl) (fun _ => rfl) (fun _ _ => rfl) (fun _ _ => rfl)
      (fun _ => rfl) (fun _ => rfl) (fun _ _ => rfl) (fun _ _ => rfl)
      W.dim_product W.next_product_key products hp
  rw [Prod.mk.injEq] at hCpair hPpair
  obtain ⟨hC1, hC2⟩ := hCpair
  obtain ⟨hP1, hP2⟩ := hPpair
  have hDtw : upsertBatch dateOps
      ((upsertBatch dateOps (W.dim_date, W.next_date_key) dates).1,
       (upsertBatch dateOps (W.dim_date, W.next_date_key) dates).2) dates
      = upsertBatch dateOps (W.dim_date, W.next_date_key) dates :=
    upsertBatch_twice dateOps (W.dim_date, W.next_date_key) dates hd
  have hD1 := congrArg Prod.fst hDtw
  have hD2 := congrArg Prod.snd hDtw
  have hrec_nodup : ((resolve_facts (mkLookups (dimsLoaded t1 W customers products dates))
      sales).1.map (fun f => f.sale_id)).Nodup := by
    have hsub := resolve_facts_sale_ids_sublist
        (mkLookups (dimsLoaded t1 W customers products dates)) sales
    exact List.Nodup.sublist hsub hs
  have hFtw : upsertBatch factOps
      ((upsertBatch factOps (W.fact_sales, W.next_fact_key)
        (resolve_facts (mkLookups (dimsLoaded t1 W customers products dates)) sales).1).1,
       (upsertBatch factOps (W.fact_sales, W.next_fact_key)
        (resolve_facts (mkLookups (dimsLoaded t1 W customers products dates)) sales).1).2)
      (resolve_facts (mkLookups (dimsLoaded t1 W customers products dates)) sales).1
      = upsertBatch factOps (W.fact_sales, W.next_fact_key)
        (resolve_facts (mkLookups (dimsLoaded t1 W customers products dates)) sales).1 :=
    upsertBatch_twice factOps (W.fact_sales, W.next_fact_key)
      (resolve_facts (mkLookups (dimsLoaded t1 W customers products dates)) sales).1 hrec_nodup
  have hF1 := congrArg Prod.fst hFtw
  have hF2 := congrArg Prod.snd hFtw
  have hcd : ∀ tl : List CustRow,
      tl.map (fun row => (row.customer_id, row.customer_key))
        = (tl.map eraseCustRow).map (fun row => (row.customer_id, row.customer_key)) := by
    intro tl
    rw [List.map_map]
    rfl
  have hpd : ∀ tl : List ProdRow,
      tl.map (fun row => (row.product_id, row.product_key))
        = (tl.map eraseProdRow).map (fun row => (row.product_id, row.product_key)) := by
    intro tl
    rw [List.map_map]
    rfl
  have hlook : mkLookups (dimsLoaded t2 (load_all t1 W sales customers products dates)
        customers products dates)
      = mkLookups (dimsLoaded t1 W customers products dates) := by
    unfold mkLookups
    simp only [Lookups.mk.injEq]
    refine ⟨?_, ?_, ?_⟩
    · show ((upsertBatch dateOps
          ((upsertBatch dateOps (W.dim_date, W.next_date_key) dates).1,
           (upsertBatch dateOps (W.dim_date, W.next_date_key) dates).2) dates).1).map
            (fun row => (row.attrs.sale_date, row.date_key))
        = ((upsertBatch dateOps (W.dim_date, W.next_date_key) dates).1).map
            (fun row => (row.attrs.sale_date, row.date_key))
      rw [hD1]
    · show ((upsertBatch (custOps t2)
          ((upsertBatch (custOps t1) (W.dim_customer, W.next_customer_key) customers).1,
           (upsertBatch (custOps t1) (W.dim_customer, W.next_customer_key) customers).2)
          customers).1).map (fun row => (row.customer_id, row.customer_key))
        = ((upsertBatch (custOps t1) (W.dim_customer, W.next_customer_key) customers).1).map
            (fun row => (row.customer_id, row.customer_key))
      rw [hcd, hcd, hC1]
    · show ((upsertBatch (prodOps t2)
          ((upsertBatch (prodOps t1) (W.dim_product, W.next_product_key) products).1,
           (upsertBatch (prodOps t1) (W.dim_product, W.next_product_key) products).2)
          products).1).map (fun row => (row.product_id, row.product_key))
        = ((upsertBatch (prodOps t1) (W.dim_product, W.next_product_key) products).1).map
            (fun row => (row.product_id, row.product_key))
      rw [hpd, hpd, hP1]
  unfold eraseW
  simp only [WarehouseData.mk.injEq]
  refine ⟨?_, ?_, ?_, ?_, ?_, ?_, ?_, ?_⟩
  · show ((upsertBatch (custOps t2)
        ((upsertBatch (custOps t1) (W.dim_customer, W.next_customer_key) customers).1,
         (upsertBatch (custOps t1) (W.dim_customer, W.next_customer_key) customers).2)
        customers).1).map eraseCustRow
      = ((upsertBatch (custOps t1) (W.dim_customer, W.next_customer_key) customers).1).map
          eraseCustRow
    exact hC1
  · show ((upsertBatch (prodOps t2)
        ((upsertBatch (prodOps t1) (W.dim_product, W.next_product_key) products).1,
         (upsertBatch (prodOps t1) (W.dim_product, W.next_product_key) products).2)
        products).1).map eraseProdRow
      = ((upsertBatch (prodOps t1) (W.dim_product, W.next_product_key) products).1).map
          eraseProdRow
    exact hP1
  · show (upsertBatch dateOps
        ((upsertBatch dateOps (W.dim_date, W.next_date_key) dates).1,
         (upsertBatch dateOps (W.dim_date, W.next_date_key) dates).2) dates).1
      = (upsertBatch dateOps (W.dim_date, W.next_date_key) dates).1
    exact hD1
  · show (upsertBatch factOps
        ((upsertBatch factOps (W.fact_sales, W.next_fact_key)
          (resolve_facts (mkLookups (dimsLoaded t1 W customers products dates)) sales).1).1,
         (upsertBatch factOps (W.fact_sales, W.next_fact_key)
          (resolve_facts (mkLookups (dimsLoaded t1 W customers products dates)) sales).1).2)
        (resolve_facts (mkLookups (dimsLoaded t2
          (load_all t1 W sales customers products dates) customers products dates)) sales).1).1
      = (upsertBatch factOps (W.fact_sales, W.next_fact_key)
          (resolve_facts (mkLookups (dimsLoaded t1 W customers products dates)) sales).1).1
    rw [hlook]
    exact hF1
  · show (upsertBatch (custOps t2)
        ((upsertBatch (custOps t1) (W.dim_customer, W.next_customer_key) customers).1,
         (upsertBatch (custOps t1) (W.dim_customer, W.next_customer_key) customers).2)
        customers).2
      = (upsertBatch (custOps t1) (W.dim_customer, W.next_customer_key) customers).2
    exact hC2
  · show (upsertBatch (prodOps t2)
        ((upsertBatch (prodOps t1) (W.dim_product, W.next_product_key) products).1,
         (upsertBatch (prodOps t1) (W.dim_product, W.next_product_key) products).2)
        products).2
      = (upsertBatch (prodOps t1) (W.dim_product, W.next_product_key) products).2
    exact hP2
  · show (upsertBatch dateOps
        ((upsertBatch dateOps (W.dim_date, W.next_date_key) dates).1,
         (upsertBatch dateOps (W.dim_date, W.next_date_key) dates).2) dates).2
      = (upsertBatch dateOps (W.dim_date, W.next_date_key) dates).2
    exact hD2
  · show (upsertBatch factOps
        ((upsertBatch factOps (W.fact_sales, W.next_fact_key)
          (resolve_facts (mkLookups (dimsLoaded t1 W customers products dates)) sales).1).1,
         (upsertBatch factOps (W.fact_sales, W.next_fact_key)
          (resolve_facts (mkLookups (dimsLoaded t1 W customers products dates)) sales).1).2)
        (resolve_facts (mkLookups (dimsLoaded t2
          (load_all t1 W sales customers products dates) customers products dates)) sales).1).2
      = (upsertBatch factOps (W.fact_sales, W.next_fact_key)
          (resolve_facts (mkLookups (dimsLoaded t1 W customers products dates)) sales).1).2
    rw [hlook]
    exact hF2

/-- C9 amended witness: the timestamp-erased states of the two runs on
the scenario customer coincide. -/
theorem pipeline_rerun_idempotent_witness :
    eraseW (load_all 1 (load_all 0 emptyWarehouse [] [exCust] [] []) [] [exCust] [] [])
      = eraseW (load_all 0 emptyWarehouse [] [exCust] [] []) :=
  pipeline_rerun_idempotent 0 1 emptyWarehouse [] [exCust] [] []
    (by decide) (by decide) (by decide) (by decide)
